import Mathlib

/-!
# Verification of the `mystampa` printing core

Shallow embedding of the receipt-layout, ESC/POS-encoding, transport-validation,
status-classification and delivery-queue code of the `mystampa` service
(files `src/utils/printer.ts` (= `src/unnamed/part_002`),
`src/utils/printQueue.ts` (= `src/unnamed/part_004`) and the print route in
`src/models.ts`), together with proofs and refutations of the frozen claims.

JavaScript strings are modelled as `List Char` (`JSStr`); `String.prototype.length`
counts UTF-16 units, which coincides with the codepoint count for all characters
appearing here.  JavaScript numbers are modelled as `ℚ` where only finite decimal
values occur, and as `Option ℚ` (`none` = NaN / ±Infinity) where `Number.isFinite`
is consulted.  External collaborators (the `iconv-lite` CP858 table, the `Jimp`
image pipeline, `new Date(...)` parsing, `Math.random`) are modelled as function
parameters: the code under verification never inspects their output.
-/

set_option maxHeartbeats 1000000
set_option maxRecDepth 8192

namespace MyStampa

/-- JavaScript strings, as sequences of UTF-16 units / characters. -/
abbrev JSStr := List Char

/-- The whitespace class used by JavaScript `trim` / `trimEnd`
(ASCII part; the inputs of interest contain no exotic Unicode spaces). -/
def jsIsWs (c : Char) : Bool :=
  c = ' ' || c = '\t' || c = '\n' || c = '\r' || c = '\x0b' || c = '\x0c'

/-- JavaScript `String.prototype.trimEnd`. -/
def jsTrimEnd (s : JSStr) : JSStr := (s.reverse.dropWhile jsIsWs).reverse

/-- JavaScript `String.prototype.trimStart`. -/
def jsTrimStart (s : JSStr) : JSStr := s.dropWhile jsIsWs

/-- JavaScript `String.prototype.trim`. -/
def jsTrim (s : JSStr) : JSStr := jsTrimStart (jsTrimEnd s)

/-- `trimStr` from `printer.ts`: `v === null || v === undefined ? '' : String(v).trim()`.
A possibly-missing string field is an `Option JSStr`. -/
def trimStr (v : Option JSStr) : JSStr := jsTrim (v.getD [])

/-- JavaScript `text.split(' ')`: split on single spaces; always returns at least
one (possibly empty) word, e.g. `"".split(' ') = [""]`. -/
def splitSpaces : JSStr → List JSStr
  | [] => [[]]
  | c :: rest =>
    if c = ' ' then [] :: splitSpaces rest
    else
      match splitSpaces rest with
      | [] => [[c]]
      | w :: ws => (c :: w) :: ws

/-- `repeat` helper from the receipt builders: `ch.repeat(Math.max(0, n))`
for a single character `ch` (the only way it is called). -/
def repChar (c : Char) (n : Nat) : JSStr := List.replicate n c

/-- `line(ch)` from the receipt builders: a full-width (48 column) rule. -/
def lineOf (c : Char) : JSStr := repChar c 48

/-- `cut(s, w)` from the receipt builders: `s.length <= w ? s : s.slice(0, w)`. -/
def cutW (s : JSStr) (w : Nat) : JSStr := if s.length ≤ w then s else s.take w

/-- `padRight(s, w)` from `buildCashReceipt`:
`s.length >= w ? s : s + repeat(" ", w - s.length)`. -/
def padRightW (s : JSStr) (w : Nat) : JSStr :=
  if s.length ≥ w then s else s ++ repChar ' ' (w - s.length)

/-! ## Word wrapping (`wrapText`, `printer.ts`)

The outer loop over words is structural; the inner hard-split `while` loop is
modelled with explicit fuel.  In a terminating run of the source loop every
iteration has a non-empty remaining word (an iteration with an empty remainder
repeats its state forever), so the loop runs at most `word.length` iterations;
the model therefore supplies `word.length + 1` units of fuel, and returns `none`
exactly when the source `while` loop runs forever. -/

/-- The hard-split `while` loop of `wrapText`:
`while ((currentLine + tempWord).length > maxWidth) { const cutLen = Math.max(1,
maxWidth - currentLine.length); lines.push(currentLine + tempWord.substring(0, cutLen));
tempWord = tempWord.substring(cutLen); currentLine = indent; }` followed by
`currentLine += tempWord + ' '`.  Nat subtraction models `Math.max`'s clamp:
`max 1 (maxW - cur.length)` agrees with `Math.max(1, maxWidth - currentLine.length)`.
Returns the extended `lines` accumulator and the new `currentLine`. -/
def hardSplitLoop : Nat → Nat → JSStr → JSStr → JSStr → List JSStr →
    Option (List JSStr × JSStr)
  | 0, _, _, _, _, _ => none
  | fuel + 1, maxW, indent, cur, temp, acc =>
    if (cur ++ temp).length > maxW then
      let cutLen := max 1 (maxW - cur.length)
      hardSplitLoop fuel maxW indent indent (temp.drop cutLen)
        (acc ++ [cur ++ temp.take cutLen])
    else
      some (acc, cur ++ temp ++ [' '])

/-- One iteration of the `for (const word of words)` loop of `wrapText`,
acting on the state `(lines, currentLine)`. -/
def wrapStep (maxW : Nat) (indent : JSStr) (st : List JSStr × JSStr) (word : JSStr) :
    Option (List JSStr × JSStr) :=
  let lines := st.1
  let cur := st.2
  if (cur ++ word).length > maxW then
    let lines1 := if cur.length > 0 then lines ++ [jsTrimEnd cur] else lines
    let pfx := if lines1.length > 0 then indent else []
    if (pfx ++ word).length > maxW then
      hardSplitLoop (word.length + 1) maxW indent pfx word lines1
    else
      some (lines1, pfx ++ word ++ [' '])
  else
    some (lines, cur ++ word ++ [' '])

/-- The word loop of `wrapText`. -/
def wrapWords (maxW : Nat) (indent : JSStr) :
    List JSStr → List JSStr × JSStr → Option (List JSStr × JSStr)
  | [], st => some st
  | w :: ws, st => (wrapStep maxW indent st w).bind (wrapWords maxW indent ws)

/-- `wrapText(text, maxWidth, indent)` from `printer.ts`.  `none` means the
source function loops forever on this input (see `hardSplitLoop`). -/
def wrapText (text : JSStr) (maxW : Nat) (indent : JSStr) : Option (List JSStr) :=
  (wrapWords maxW indent (splitSpaces text) ([], [])).map fun st =>
    if 0 < (jsTrim st.2).length then st.1 ++ [jsTrimEnd st.2] else st.1

/-! ## Currency formatting and the left/right column layout (`buildCashReceipt`) -/

/-- `String(n)` for a natural number. -/
def natDigits (n : Nat) : JSStr := (toString n).toList

/-- `String(n).padStart(2, '0')` as used for date and cent rendering. -/
def pad2 (n : Nat) : JSStr := if n < 10 then '0' :: natDigits n else natDigits n

/-- The number of cents produced by `v.toFixed(2)` for a non-negative decimal:
round half away from zero. -/
def fixed2Cents (q : ℚ) : Int := ⌊q * 100 + 1 / 2⌋

/-- Render a non-negative cent count with the comma decimal separator
(`v.toFixed(2).replace(".", ",")`). -/
def fixed2Render (cents : Nat) : JSStr := natDigits (cents / 100) ++ [','] ++ pad2 (cents % 100)

/-- `eurCol(n)` from `buildCashReceipt`: `v.toFixed(2).replace(".", ",") + "€"`
(the `Number.isFinite` fallback to `0` is outside the `ℚ` model). -/
def eurCol (q : ℚ) : JSStr :=
  (if q < 0 then '-' :: fixed2Render (fixed2Cents (-q)).toNat
   else fixed2Render (fixed2Cents q).toNat) ++ ['€']

/-- `lr(left, right)` from the `async buildCashReceipt`:
`left = String(left).trimEnd(); right = trimStr(right);
const leftW = RECEIPT_W - right.length - space;` then
`padRight(cut(left, max(0, leftW)), max(0, leftW)) + " " + right`.
Nat subtraction models the `Math.max(0, ...)` clamp. -/
def jsLr (left right : JSStr) : JSStr :=
  let left := jsTrimEnd left
  let right := jsTrim right
  let leftW := 48 - right.length - 1
  padRightW (cutW left leftW) leftW ++ [' '] ++ right

/-! ## Cash receipt totals (`async buildCashReceipt`, `printer.ts`)

The BODY loop accumulates `subtotalCalc += rowBase; surchargeSum += rowExtra;`
with `rowBase = toNumber(l.unitPrice ?? 0) * (l.quantity ?? 1)` and
`rowExtra = toNumber(l.surcharge ?? 0) * (l.quantity ?? 1)`; the TOTALI section
computes `totalAfterDiscount = Math.max(0, totalBase - discount)` with
`totalBase = subtotalCalc + surchargeSum`, `discount = toNumber(order.discount)`. -/

/-- A `CashReceiptLine` (`{foodName, quantity, notes?, unitPrice, surcharge?}`),
with the optional / possibly-null fields as `Option`s.  Numeric fields are the
decimal values produced by `toNumber`. -/
structure CashLine where
  foodName : Option JSStr
  quantity : Option ℚ
  notes : Option JSStr
  unitPrice : Option ℚ
  surcharge : Option ℚ
deriving DecidableEq, Repr

/-- `rowBase = unitBase * qty`. -/
def rowBase (l : CashLine) : ℚ := l.unitPrice.getD 0 * l.quantity.getD 1

/-- `rowExtra = unitExtra * qty`. -/
def rowExtra (l : CashLine) : ℚ := l.surcharge.getD 0 * l.quantity.getD 1

/-- The `(subtotalCalc, surchargeSum)` accumulation over the BODY loop. -/
def cashAccum (ls : List CashLine) : ℚ × ℚ :=
  ls.foldl (fun acc l => (acc.1 + rowBase l, acc.2 + rowExtra l)) (0, 0)

/-- `totalAfterDiscount = Math.max(0, totalBase - discount)`. -/
def cashTotalAfterDiscount (ls : List CashLine) (discount : ℚ) : ℚ :=
  max 0 ((cashAccum ls).1 + (cashAccum ls).2 - discount)

/-- The TOTALI section pushed by `buildCashReceipt` after the item body:
`SUBTOTALE`, optional `EXTRA TOTALI`, optional `SCONTO`, then the framed
`TOTALE` line. -/
def cashTotalsSection (ls : List CashLine) (discount : ℚ) : List JSStr :=
  let subtotalCalc := (cashAccum ls).1
  let surchargeSum := (cashAccum ls).2
  let totalAfter := max 0 (subtotalCalc + surchargeSum - discount)
  [jsLr "SUBTOTALE".toList (eurCol subtotalCalc)]
    ++ (if surchargeSum > 0 then [jsLr "EXTRA TOTALI".toList (eurCol surchargeSum)] else [])
    ++ (if discount > 0 then [jsLr "SCONTO".toList ('-' :: eurCol discount)] else [])
    ++ [lineOf '='] ++ [jsLr "TOTALE".toList (eurCol totalAfter)] ++ [lineOf '=']

/-! ## Kitchen receipt (`buildKitchenReceipt`, `printer.ts`, wrapping version)
and the per-printer progress counters (`models.ts`)

`new Date(order.confirmedAt)` and its field extraction are modelled by a
parameter `pd : JSStr → Option DateParts` (`none` = `isNaN(d.getTime())`;
the `catch` branch prints the same line as the `none` branch).  The receipt is
returned as its `out` list of lines (the source joins them with `"\n"`);
`none` means a `wrapText` call inside diverged (see `hardSplitLoop`). -/

/-- The fields `getDate / getMonth + 1 / getFullYear / getHours / getMinutes`
of a successfully parsed `Date`. -/
structure DateParts where
  day : Nat
  month : Nat
  year : Nat
  hrs : Nat
  mins : Nat
deriving DecidableEq, Repr

/-- A `KitchenReceiptLine` (`{foodName, quantity, notes?}`). -/
structure KitchenLine where
  foodName : Option JSStr
  quantity : Option Int
  notes : Option JSStr
deriving DecidableEq, Repr

/-- The order metadata consumed by the receipt builders. -/
structure KOrder where
  displayCode : Option JSStr
  table : Option JSStr
  customer : Option JSStr
  confirmedAt : Option JSStr
deriving DecidableEq, Repr

/-- `GS + "!" + "\x11"` (double width and height). -/
def TXT_BIG : JSStr := ['\x1D', '!', '\x11']

/-- `GS + "!" + "\x00"` (normal size). -/
def TXT_NORMAL : JSStr := ['\x1D', '!', '\x00']

/-- The `ORA:` header line: formatted date on successful parse, raw trimmed
string otherwise (`isNaN` branch and `catch` branch coincide). -/
def oraLine (pd : JSStr → Option DateParts) (confirmedAt : Option JSStr) : JSStr :=
  match pd (confirmedAt.getD []) with
  | some d =>
    cutW ("ORA: ".toList ++ pad2 d.day ++ ['/'] ++ pad2 d.month ++ ['/']
      ++ natDigits d.year ++ [' '] ++ pad2 d.hrs ++ [':'] ++ pad2 d.mins) 48
  | none => cutW ("ORA: ".toList ++ trimStr confirmedAt) 48

/-- The header block of `buildKitchenReceipt`, up to and including the second
`line("-")` rule. -/
def kitchenHeader (pd : JSStr → Option DateParts) (o : KOrder) (progress : Nat) :
    List JSStr :=
  let dc := trimStr o.displayCode
  let topInfo :=
    if dc.length > 0 then
      "COD: ".toList ++ dc ++ " - PROGR: ".toList ++ natDigits progress
    else "PROGR: ".toList ++ natDigits progress
  let table := if (trimStr o.table).length > 0 then trimStr o.table else ['-']
  let customer := if (trimStr o.customer).length > 0 then trimStr o.customer else ['-']
  [cutW topInfo 48,
   cutW "===== ORDINE CUCINA =====".toList 48,
   lineOf '=',
   TXT_BIG ++ cutW ("TAVOLO: ".toList ++ table) 48 ++ TXT_NORMAL,
   TXT_BIG ++ cutW ("CLIENTE: ".toList ++ customer) 48 ++ TXT_NORMAL,
   TXT_BIG ++ cutW ("PROGR: ".toList ++ natDigits progress) 48 ++ TXT_NORMAL,
   lineOf '-']
    ++ (if dc.length > 0 then [cutW ("CODICE: ".toList ++ dc) 48] else [])
    ++ (if (trimStr o.confirmedAt).length > 0 then [oraLine pd o.confirmedAt] else [])
    ++ [lineOf '-']

/-- One iteration of the ITEMS loop of `buildKitchenReceipt`: the wrapped
`"{qty}x {name}"` block, the wrapped `NOTE:` block when notes are non-empty,
and the blank separator line. -/
def kitchenItem (l : KitchenLine) : Option (List JSStr) :=
  let qty := l.quantity.getD 1
  let name := if (trimStr l.foodName).length > 0 then trimStr l.foodName else "FOOD".toList
  let namePre := (toString qty).toList ++ "x ".toList
  let ind := repChar ' ' namePre.length
  (wrapText (namePre ++ name) 48 ind).bind fun wrappedName =>
    (if (trimStr l.notes).length > 0 then
      let noteInd := ind ++ repChar ' ' 6
      wrapText (ind ++ "NOTE: ".toList ++ trimStr l.notes) 48 noteInd
    else some []).map fun wrappedNotes =>
      wrappedName ++ wrappedNotes ++ [[]]

/-- The ITEMS loop of `buildKitchenReceipt`. -/
def kitchenItems : List KitchenLine → Option (List JSStr)
  | [] => some []
  | l :: ls => (kitchenItem l).bind fun block =>
      (kitchenItems ls).map fun rest => block ++ rest

/-- `buildKitchenReceipt(order, lines, progress)` as its `out` line list. -/
def buildKitchenReceipt (pd : JSStr → Option DateParts) (o : KOrder)
    (ls : List KitchenLine) (progress : Nat) : Option (List JSStr) :=
  (kitchenItems ls).map fun items => kitchenHeader pd o progress ++ items ++ [lineOf '-']

/-- One kitchen-receipt generation in the `/print` route of `models.ts`:
`const prog = progressCounters[printerId] ?? 1; ...;
progressCounters[printerId] = prog + 1;`.  Returns the progress value used
for the receipt and the updated counter map. -/
def kitchenGenStep (st : String → Option Nat) (pid : String) :
    Nat × (String → Option Nat) :=
  let prog := (st pid).getD 1
  (prog, fun p => if p = pid then some (prog + 1) else st p)

/-- A sequence of kitchen-receipt generations (one per element of `pids`,
in order), returning the `(printerId, progress-used)` history. -/
def runGens : (String → Option Nat) → List String → List (String × Nat)
  | _, [] => []
  | st, pid :: rest =>
    let s := kitchenGenStep st pid
    (pid, s.1) :: runGens s.2 rest

/-- The progress values used at one printer, in generation order. -/
def progsAt (pid : String) (hist : List (String × Nat)) : List Nat :=
  (hist.filter (fun e => e.1 == pid)).map (fun e => e.2)

/-! ## Raster image packing (`loadImageAsEscPos`, `printer.ts`)

Everything up to the composited, thresholded canvas is `Jimp` territory and is
modelled by the pixel predicate `black x y` (`alpha > 128 && r < 128` on the
canvas).  The packing loop and the `GS v 0` header are embedded verbatim:
`widthBytes = Math.ceil(paperWidth / 8)`, canvas width `widthBytes * 8`,
`data = Buffer.alloc(widthBytes * itemHeight)`, and for each black pixel
`data[y * widthBytes + (x / 8 | 0)] |= 1 << (7 - x % 8)`. -/

/-- `data[idx] |= 1 << bit` on the byte list. -/
def setBitAt (d : List Nat) (idx bit : Nat) : List Nat :=
  d.set idx (d.getD idx 0 ||| (1 <<< bit))

/-- The packing double loop of `loadImageAsEscPos` over `y < height` and
`x < widthBytes * 8`, starting from the zeroed buffer. -/
def packBitmap (black : Nat → Nat → Bool) (widthBytes height : Nat) : List Nat :=
  (List.range height).foldl
    (fun d y =>
      (List.range (widthBytes * 8)).foldl
        (fun d x => if black x y then setBitAt d (y * widthBytes + x / 8) (7 - x % 8) else d)
        d)
    (List.replicate (widthBytes * height) 0)

/-- The 8-byte `GS v 0` raster header
`[0x1d, 0x76, 0x30, 0x00, xL, xH, yL, yH]`. -/
def rasterHeader (widthBytes height : Nat) : List Nat :=
  [0x1d, 0x76, 0x30, 0x00, widthBytes % 256, widthBytes / 256, height % 256, height / 256]

/-- The buffer returned by `loadImageAsEscPos` on success
(`Buffer.concat([header, data])`), for canvas height `height` and paper width
`paperWidth` dots; `widthBytes = Math.ceil(paperWidth / 8) = (paperWidth+7)/8`. -/
def escposRaster (black : Nat → Nat → Bool) (paperWidth height : Nat) : List Nat :=
  let widthBytes := (paperWidth + 7) / 8
  rasterHeader widthBytes height ++ packBitmap black widthBytes height

/-! ## Printer status classification (`getPrinterStatus`, `printer.ts`)

The pure part of `getPrinterStatus`: the classification of the first response
byte.  `const paperEnded = (statusByte & 0x60) === 0x60;
const paperLow = (statusByte & 0x0C) === 0x0C;` then
`CARTA_FINITA` / `CARTA_QUASI_FINITA` / `OK`. -/

/-- Classification of a status response byte in `getPrinterStatus`. -/
def classifyStatusByte (b : Nat) : String :=
  let paperEnded := b &&& 0x60 == 0x60
  let paperLow := b &&& 0x0C == 0x0C
  if paperEnded then "CARTA_FINITA"
  else if paperLow then "CARTA_QUASI_FINITA"
  else "OK"

/-! ## Transport payload assembly (`sendToPrinter`, `printer.ts`, array overload)

`sendToPrinter` normalises its `data` argument to an array of segments, builds
`buffers = [SELECT_CP858]`, pushes each segment (Buffers verbatim, strings
through `iconv.encode(item, "cp858")`), pushes `FEED_AND_CUT`, and concatenates.
The CP858 table lives in `iconv-lite`; it is modelled as a parameter `enc`. -/

/-- A print segment: a text run or a raw binary blob (`string | Buffer`). -/
inductive Segment
  | text (s : JSStr)
  | bytes (b : List Nat)
deriving DecidableEq, Repr

/-- `SELECT_CP858 = Buffer.from(ESC + "t" + "\x13", "ascii")`. -/
def SELECT_CP858 : List Nat := [0x1B, 0x74, 0x13]

/-- `FEED_AND_CUT = Buffer.from(ESC + "d" + "\x06" + ESC + "i", "ascii")`. -/
def FEED_AND_CUT : List Nat := [0x1B, 0x64, 0x06, 0x1B, 0x69]

/-- How one segment is turned into bytes inside the `for (const item of normalized)`
loop: Buffers pass through, strings are CP858-encoded. -/
def encodeSegment (enc : JSStr → List Nat) : Segment → List Nat
  | .text s => enc s
  | .bytes b => b

/-- The payload built by `sendToPrinter` for a segment list, mirroring the
`buffers` accumulation and final `Buffer.concat`. -/
def sendPayload (enc : JSStr → List Nat) (data : List Segment) : List Nat :=
  ((data.foldl (fun bufs item => bufs ++ [encodeSegment enc item]) [SELECT_CP858])
    ++ [FEED_AND_CUT]).flatten

/-! ## Address validation (`sendToPrinter`) and `safePrint` (`models.ts`)

`sendToPrinter` throws `Invalid printer address` iff
`!ipClean || !Number.isFinite(portClean) || portClean <= 0`, before any socket
is created.  The port is an `Option ℚ` (`none` = NaN/±Infinity). -/

/-- The guard of `sendToPrinter`: `true` iff the call throws the
`Invalid printer address` error (before any network I/O). -/
def sendAddrInvalid (ip : JSStr) (port : Option ℚ) : Bool :=
  (jsTrim ip).isEmpty ||
    match port with
    | none => true
    | some q => decide (q ≤ 0)

/-- Outcome of the `getPrinterStatus` call awaited by `safePrint`:
either a status string or a rejection (connection error / timeout). -/
inductive StatusOutcome
  | ok (s : String)
  | err
deriving DecidableEq, Repr

/-- `safePrint` from `models.ts`, reduced to its queueing decision: returns
`true` iff the job is handed to `printQueue.add`.  `transportFails` tells
whether the socket write inside `sendToPrinter` fails (external), while the
`Invalid printer address` throw is determined by `sendAddrInvalid`. -/
def safePrintQueues (ip : JSStr) (port : Option ℚ) (statusOut : StatusOutcome)
    (transportFails : Bool) : Bool :=
  match statusOut with
  | .err => true
  | .ok s =>
    if s = "OK" ∨ s = "CARTA_QUASI_FINITA" then
      if sendAddrInvalid ip port then true else transportFails
    else true

/-! ## Delivery queue (`printQueue.ts`) -/

/-- A queued print job.  `data` is kept abstract as the encoded byte payload. -/
structure PrintJob where
  id : String
  printerId : String
  ip : String
  port : Int
  data : List Nat
  timestamp : Nat
  attempts : Nat
deriving DecidableEq, Repr

/-- `PrintQueueManager.add`: builds the job with the externally supplied
random id (`Math.random().toString(36).substring(7)`) and timestamp
(`Date.now()`), attempts `0`, and appends it with `this.queue.push(job)`. -/
def queueAdd (q : List PrintJob) (randId : String) (printerId ip : String)
    (port : Int) (data : List Nat) (now : Nat) : List PrintJob :=
  q ++ [{ id := randId, printerId := printerId, ip := ip, port := port,
          data := data, timestamp := now, attempts := 0 }]

/-- The grouping step of `processQueue`:
`const existing = jobsByPrinter.get(job.printerId) || []; existing.push(job);
jobsByPrinter.set(job.printerId, existing);` — a JS `Map` keeps keys in first
insertion order. -/
def addToGroups (gs : List (String × List PrintJob)) (j : PrintJob) :
    List (String × List PrintJob) :=
  if gs.any (fun g => g.1 == j.printerId) then
    gs.map (fun g => if g.1 == j.printerId then (g.1, g.2 ++ [j]) else g)
  else
    gs ++ [(j.printerId, [j])]

/-- `jobsByPrinter` after the grouping loop of `processQueue`. -/
def groupByPrinter (q : List PrintJob) : List (String × List PrintJob) :=
  q.foldl addToGroups []

/-- The status test of `processQueue`:
`status === "OK" || status === "CARTA_QUASI_FINITA"`; `none` models a rejected
`getPrinterStatus` promise (caught by the surrounding `try`). -/
def statusReady : Option String → Bool
  | none => false
  | some s => s == "OK" || s == "CARTA_QUASI_FINITA"

/-- Result of one `processQueue` sweep. -/
structure SweepResult where
  remaining : List PrintJob
  attempted : List PrintJob
  queries : List (String × String × Int)
deriving Repr

/-- `PrintQueueManager.processQueue`, as a pure sweep.  `statusOf ip port` is
the outcome of `getPrinterStatus(ip, port)` for this sweep; `sendOk j` tells
whether `sendToPrinter(j.ip, j.port, j.data)` resolves.  Per group the status
is queried once, at the first job's address; on a ready status every job of
the group is attempted and the failures are kept; otherwise (not ready, or
status check rejected) the whole group is kept.  `this.queue = remainingJobs`. -/
def processQueue (statusOf : String → Int → Option String)
    (sendOk : PrintJob → Bool) (q : List PrintJob) : SweepResult :=
  let groups := groupByPrinter q
  { remaining := groups.flatMap fun g =>
      match g.2 with
      | [] => []
      | j0 :: _ =>
        if statusReady (statusOf j0.ip j0.port) then
          g.2.filter (fun j => !(sendOk j))
        else g.2
    attempted := groups.flatMap fun g =>
      match g.2 with
      | [] => []
      | j0 :: _ => if statusReady (statusOf j0.ip j0.port) then g.2 else []
    queries := groups.filterMap fun g =>
      (g.2.head?).map fun j0 => (g.1, j0.ip, j0.port) }

/-! ## Supporting lemmas -/

/-- The `buffers` accumulation of `sendToPrinter` is a map over the segments. -/
theorem foldl_buffers_eq (enc : JSStr → List Nat) :
    ∀ (data : List Segment) (acc : List (List Nat)),
      data.foldl (fun bufs item => bufs ++ [encodeSegment enc item]) acc
        = acc ++ data.map (encodeSegment enc) := by
  intro data
  induction data with
  | nil => simp
  | cons d ds ih => intro acc; simp [List.foldl_cons, ih]

/-- A fold whose step preserves list length preserves list length. -/
theorem length_foldl_preserve {α : Type} (f : List Nat → α → List Nat)
    (h : ∀ d a, (f d a).length = d.length) :
    ∀ (l : List α) (d : List Nat), (l.foldl f d).length = d.length := by
  intro l
  induction l with
  | nil => intro d; rfl
  | cons a as ih => intro d; rw [List.foldl_cons, ih, h]

/-- `setBitAt` preserves the buffer length (as `data[i] |= …` does). -/
theorem length_setBitAt (d : List Nat) (idx bit : Nat) :
    (setBitAt d idx bit).length = d.length := by
  simp [setBitAt]

/-- The packed bitmap has exactly `widthBytes * height` bytes. -/
theorem length_packBitmap (black : Nat → Nat → Bool) (widthBytes height : Nat) :
    (packBitmap black widthBytes height).length = widthBytes * height := by
  unfold packBitmap
  rw [length_foldl_preserve]
  · exact List.length_replicate ..
  · intro d y
    rw [length_foldl_preserve]
    intro d x
    split
    · exact length_setBitAt ..
    · rfl

/-- The `(subtotalCalc, surchargeSum)` fold computes the two row sums. -/
theorem cashAccum_eq_sums : ∀ (ls : List CashLine) (a b : ℚ),
    ls.foldl (fun acc l => (acc.1 + rowBase l, acc.2 + rowExtra l)) (a, b)
      = (a + (ls.map rowBase).sum, b + (ls.map rowExtra).sum) := by
  intro ls
  induction ls with
  | nil => intro a b; simp
  | cons l t ih => intro a b; simp [List.foldl_cons, ih]; constructor <;> ring

/-- Closed form of `cashAccum`. -/
theorem cashAccum_fst_snd (ls : List CashLine) :
    cashAccum ls = ((ls.map rowBase).sum, (ls.map rowExtra).sum) := by
  unfold cashAccum
  rw [cashAccum_eq_sums]
  simp

/-- Progress values used at a printer, for an arbitrary starting counter map. -/
theorem progsAt_runGens : ∀ (pids : List String) (st : String → Option Nat) (pid : String),
    progsAt pid (runGens st pids) = List.range' ((st pid).getD 1) (pids.count pid) := by
  intro pids
  induction pids with
  | nil => intro st pid; simp [runGens, progsAt]
  | cons q rest ih =>
    intro st pid
    have hrun : runGens st (q :: rest)
        = (q, (st q).getD 1)
          :: runGens (fun p => if p = q then some ((st q).getD 1 + 1) else st p) rest := rfl
    rw [hrun]
    by_cases hq : q = pid
    · subst hq
      have htail := ih (fun p => if p = q then some ((st q).getD 1 + 1) else st p) q
      simp only [if_pos rfl, Option.getD_some] at htail
      have hcons : progsAt q ((q, (st q).getD 1)
            :: runGens (fun p => if p = q then some ((st q).getD 1 + 1) else st p) rest)
          = (st q).getD 1
            :: progsAt q (runGens (fun p => if p = q then some ((st q).getD 1 + 1) else st p) rest) := by
        simp [progsAt]
      rw [hcons, htail]
      simp [List.count_cons, List.range'_succ]
    · have hbq : (q == pid) = false := beq_eq_false_iff_ne.mpr hq
      have htail := ih (fun p => if p = q then some ((st q).getD 1 + 1) else st p) pid
      rw [if_neg (fun h => hq h.symm)] at htail
      have hcons : progsAt pid ((q, (st q).getD 1)
            :: runGens (fun p => if p = q then some ((st q).getD 1 + 1) else st p) rest)
          = progsAt pid (runGens (fun p => if p = q then some ((st q).getD 1 + 1) else st p) rest) := by
        simp [progsAt, List.filter_cons, hbq]
      rw [hcons, htail]
      simp [List.count_cons, hbq]

/-! ### Lemmas about JavaScript trimming and space splitting -/

/-- The non-whitespace characters of a string, in order. -/
def nsChars (s : JSStr) : JSStr := s.filter (fun c => !jsIsWs c)

/-- `dropWhile` never lengthens a list. -/
theorem length_dropWhile_le {α : Type} (p : α → Bool) :
    ∀ l : List α, (l.dropWhile p).length ≤ l.length := by
  intro l
  induction l with
  | nil => simp
  | cons a t ih =>
    by_cases h : p a = true
    · rw [List.dropWhile_cons_of_pos h]
      exact le_trans ih (Nat.le_succ _)
    · rw [List.dropWhile_cons_of_neg h]

/-- `trimEnd` never lengthens a string. -/
theorem length_jsTrimEnd_le (s : JSStr) : (jsTrimEnd s).length ≤ s.length := by
  unfold jsTrimEnd
  rw [List.length_reverse]
  calc (s.reverse.dropWhile jsIsWs).length ≤ s.reverse.length := length_dropWhile_le ..
    _ = s.length := List.length_reverse ..

/-- A trailing space does not affect `trimEnd`. -/
theorem jsTrimEnd_append_space (s : JSStr) : jsTrimEnd (s ++ [' ']) = jsTrimEnd s := by
  unfold jsTrimEnd
  rw [List.reverse_append]
  simp [List.dropWhile_cons, jsIsWs]

/-- `dropWhile jsIsWs` only removes whitespace characters. -/
theorem nsChars_dropWhile (l : JSStr) : nsChars (l.dropWhile jsIsWs) = nsChars l := by
  induction l with
  | nil => rfl
  | cons c t ih =>
    by_cases h : jsIsWs c = true
    · rw [List.dropWhile_cons_of_pos h, ih]
      unfold nsChars
      rw [List.filter_cons_of_neg (by simp [h])]
    · rw [List.dropWhile_cons_of_neg h]

/-- `trimEnd` only removes whitespace characters. -/
theorem nsChars_jsTrimEnd (s : JSStr) : nsChars (jsTrimEnd s) = nsChars s := by
  unfold jsTrimEnd nsChars
  rw [List.filter_reverse]
  have := nsChars_dropWhile s.reverse
  unfold nsChars at this
  rw [this, ← List.filter_reverse, List.reverse_reverse]

/-- `trim` only removes whitespace characters. -/
theorem nsChars_jsTrim (s : JSStr) : nsChars (jsTrim s) = nsChars s := by
  unfold jsTrim jsTrimStart
  rw [nsChars_dropWhile, nsChars_jsTrimEnd]

/-- A string that trims to nothing has no non-whitespace characters. -/
theorem nsChars_of_jsTrim_nil (s : JSStr) (h : (jsTrim s).length = 0) : nsChars s = [] := by
  rw [← nsChars_jsTrim]
  rw [List.length_eq_zero] at h
  rw [h]
  rfl

/-- `nsChars` distributes over concatenation. -/
theorem nsChars_append (a b : JSStr) : nsChars (a ++ b) = nsChars a ++ nsChars b :=
  List.filter_append ..

/-- An all-whitespace string has no non-whitespace characters. -/
theorem nsChars_of_all_ws (s : JSStr) (h : ∀ c ∈ s, jsIsWs c = true) : nsChars s = [] := by
  unfold nsChars
  rw [List.filter_eq_nil_iff]
  intro c hc
  simp [h c hc]

/-- `split(' ')` always produces at least one word. -/
theorem splitSpaces_ne_nil : ∀ t : JSStr, splitSpaces t ≠ [] := by
  intro t
  cases t with
  | nil => simp [splitSpaces]
  | cons c rest =>
    unfold splitSpaces
    by_cases h : c = ' '
    · simp [h]
    · simp only [h, if_false]
      cases hs : splitSpaces rest <;> simp

/-- Concatenating the words of `split(' ')` keeps exactly the non-whitespace
characters of the text (the separators are spaces). -/
theorem nsChars_flatten_splitSpaces : ∀ t : JSStr,
    nsChars (splitSpaces t).flatten = nsChars t := by
  intro t
  induction t with
  | nil => rfl
  | cons c rest ih =>
    unfold splitSpaces
    by_cases h : c = ' '
    · rw [if_pos h]
      subst h
      simp only [List.flatten_cons, List.nil_append]
      rw [ih]
      unfold nsChars
      rw [List.filter_cons_of_neg (by simp [jsIsWs])]
    · rw [if_neg h]
      cases hs : splitSpaces rest with
      | nil => exact absurd hs (splitSpaces_ne_nil rest)
      | cons w ws =>
        rw [hs] at ih
        simp only [List.flatten_cons] at ih ⊢
        rw [List.cons_append]
        unfold nsChars at ih ⊢
        by_cases hc : jsIsWs c = true
        · rw [List.filter_cons_of_neg (by simp [hc]), List.filter_cons_of_neg (by simp [hc])]
          exact ih
        · rw [List.filter_cons_of_pos (by simp [hc]), List.filter_cons_of_pos (by simp [hc])]
          rw [ih]

/-! ## Claim C1 — cash receipt total -/

/-- C1.  For every list of priced lines and every discount, the
`totalAfterDiscount` printed on the `TOTALE` line of `buildCashReceipt` equals
`max 0 (Σ unitPrice·qty + Σ surcharge·qty − discount)`; it is never negative,
and it is exactly `0` whenever the discount exceeds the line totals.  The
`TOTALE` row of the TOTALI section renders exactly this amount. -/
theorem cash_receipt_total_correct (ls : List CashLine) (discount : ℚ)
    (_hu : ∀ l ∈ ls, 0 ≤ l.unitPrice.getD 0)
    (_hs : ∀ l ∈ ls, 0 ≤ l.surcharge.getD 0)
    (_hq : ∀ l ∈ ls, 0 ≤ l.quantity.getD 1) :
    cashTotalAfterDiscount ls discount
      = max 0 ((ls.map fun l => l.unitPrice.getD 0 * l.quantity.getD 1).sum
          + (ls.map fun l => l.surcharge.getD 0 * l.quantity.getD 1).sum - discount)
    ∧ 0 ≤ cashTotalAfterDiscount ls discount
    ∧ ((ls.map fun l => l.unitPrice.getD 0 * l.quantity.getD 1).sum
          + (ls.map fun l => l.surcharge.getD 0 * l.quantity.getD 1).sum < discount →
        cashTotalAfterDiscount ls discount = 0)
    ∧ jsLr "TOTALE".toList (eurCol (cashTotalAfterDiscount ls discount))
        ∈ cashTotalsSection ls discount := by
  have hacc : cashTotalAfterDiscount ls discount
      = max 0 ((ls.map fun l => l.unitPrice.getD 0 * l.quantity.getD 1).sum
          + (ls.map fun l => l.surcharge.getD 0 * l.quantity.getD 1).sum - discount) := by
    unfold cashTotalAfterDiscount
    rw [cashAccum_fst_snd]
    rfl
  refine ⟨hacc, le_max_left _ _, fun hlt => ?_, ?_⟩
  · rw [hacc]
    exact max_eq_left (by linarith)
  · have : jsLr "TOTALE".toList (eurCol (cashTotalAfterDiscount ls discount))
        = jsLr "TOTALE".toList
            (eurCol (max 0 ((cashAccum ls).1 + (cashAccum ls).2 - discount))) := rfl
    rw [this]
    unfold cashTotalsSection
    simp only [List.mem_append, List.mem_cons]
    tauto

/-- Witness for C1: one line of 2 × 5,00€ with a 2 × 1,00€ surcharge and a
discount of 20 — the total clamps to exactly 0. -/
theorem cash_receipt_total_correct_witness :
    cashTotalAfterDiscount [⟨none, some 2, none, some 5, some 1⟩] 20
      = max 0 (([(⟨none, some 2, none, some 5, some 1⟩ : CashLine)].map
            fun l => l.unitPrice.getD 0 * l.quantity.getD 1).sum
          + (([(⟨none, some 2, none, some 5, some 1⟩ : CashLine)]).map
            fun l => l.surcharge.getD 0 * l.quantity.getD 1).sum - 20)
    ∧ 0 ≤ cashTotalAfterDiscount [⟨none, some 2, none, some 5, some 1⟩] 20
    ∧ ((([(⟨none, some 2, none, some 5, some 1⟩ : CashLine)]).map
            fun l => l.unitPrice.getD 0 * l.quantity.getD 1).sum
          + (([(⟨none, some 2, none, some 5, some 1⟩ : CashLine)]).map
            fun l => l.surcharge.getD 0 * l.quantity.getD 1).sum < 20 →
        cashTotalAfterDiscount [⟨none, some 2, none, some 5, some 1⟩] 20 = 0)
    ∧ jsLr "TOTALE".toList
          (eurCol (cashTotalAfterDiscount [⟨none, some 2, none, some 5, some 1⟩] 20))
        ∈ cashTotalsSection [⟨none, some 2, none, some 5, some 1⟩] 20 :=
  cash_receipt_total_correct [⟨none, some 2, none, some 5, some 1⟩] 20
    (by decide) (by decide) (by decide)

/-! ## Claim C3 — status byte classification -/

/-- C3.  A status byte is classified `CARTA_FINITA` iff bits 5 and 6 are both
set, `CARTA_QUASI_FINITA` iff bits 2 and 3 are both set and it is not paper-out,
and `OK` otherwise; in particular `0b01100000 ↦ CARTA_FINITA`,
`0b00001100 ↦ CARTA_QUASI_FINITA`, `0b00000000 ↦ OK`. -/
theorem status_byte_classification :
    (∀ b, b < 256 →
      (classifyStatusByte b = "CARTA_FINITA" ↔ (Nat.testBit b 5 ∧ Nat.testBit b 6))
      ∧ (classifyStatusByte b = "CARTA_QUASI_FINITA"
          ↔ ((Nat.testBit b 2 ∧ Nat.testBit b 3) ∧ ¬(Nat.testBit b 5 ∧ Nat.testBit b 6)))
      ∧ (classifyStatusByte b = "OK"
          ↔ (¬(Nat.testBit b 5 ∧ Nat.testBit b 6) ∧ ¬(Nat.testBit b 2 ∧ Nat.testBit b 3))))
    ∧ classifyStatusByte 0x60 = "CARTA_FINITA"
    ∧ classifyStatusByte 0x0C = "CARTA_QUASI_FINITA"
    ∧ classifyStatusByte 0x00 = "OK" := by
  refine ⟨?_, rfl, rfl, rfl⟩
  decide

/-- Witness for C3 at the concrete byte `0x6C` (bits 2,3,5,6 set: paper-out
wins over paper-low). -/
theorem status_byte_classification_witness :
    (classifyStatusByte 0x6C = "CARTA_FINITA" ↔ (Nat.testBit 0x6C 5 ∧ Nat.testBit 0x6C 6))
    ∧ (classifyStatusByte 0x6C = "CARTA_QUASI_FINITA"
        ↔ ((Nat.testBit 0x6C 2 ∧ Nat.testBit 0x6C 3)
            ∧ ¬(Nat.testBit 0x6C 5 ∧ Nat.testBit 0x6C 6)))
    ∧ (classifyStatusByte 0x6C = "OK"
        ↔ (¬(Nat.testBit 0x6C 5 ∧ Nat.testBit 0x6C 6)
            ∧ ¬(Nat.testBit 0x6C 2 ∧ Nat.testBit 0x6C 3))) :=
  status_byte_classification.1 0x6C (by decide)

/-! ## Claim C5 — address validation and queueing of rejected jobs -/

/-- C5 (amended).  `sendToPrinter` throws `Invalid printer address` exactly when
the trimmed ip is empty or the port is not a positive finite number (it does
not check integrality), before any network I/O; and a job whose `sendToPrinter`
call is rejected this way under `safePrint` is nevertheless added to the retry
queue — `safePrint` enqueues on every status or send failure. -/
theorem send_invalid_address_spec (ip : JSStr) (port : Option ℚ) :
    (sendAddrInvalid ip port = true ↔ (jsTrim ip = [] ∨ ¬ ∃ q, port = some q ∧ 0 < q))
    ∧ (∀ st tf, sendAddrInvalid ip port = true → safePrintQueues ip port st tf = true) := by
  constructor
  · cases port with
    | none => simp [sendAddrInvalid, List.isEmpty_iff]
    | some q =>
      simp only [sendAddrInvalid, Bool.or_eq_true, List.isEmpty_iff, decide_eq_true_eq]
      constructor
      · rintro (h | h)
        · exact Or.inl h
        · exact Or.inr (by rintro ⟨q', hq', hpos⟩; cases hq'; linarith)
      · rintro (h | h)
        · exact Or.inl h
        · exact Or.inr (by by_contra hc; push_neg at hc; exact h ⟨q, rfl, hc⟩)
  · intro st tf h
    cases st with
    | err => rfl
    | ok s =>
      simp only [safePrintQueues]
      split
      · simp [h]
      · rfl

/-- Witness for C5: ip `" "` (empty after trimming) with port 5 is rejected as
an invalid address, and under `safePrint` (status `"OK"`, no transport failure)
the job still goes to the queue. -/
theorem send_invalid_address_spec_witness :
    safePrintQueues " ".toList (some 5) (.ok "OK") false = true :=
  (send_invalid_address_spec " ".toList (some 5)).2 (.ok "OK") false (by decide)

/-- Counterexample to C5 as stated: with ip `""` and port `0` the send is
rejected as `InvalidAddress`, yet `safePrint` adds the job to the retry queue
(the claim says it is never queued); and a non-integer port `1/2` passes the
validation (the claim says a non-integer port must be rejected). -/
theorem send_invalid_address_claim_false :
    sendAddrInvalid "".toList (some 0) = true
    ∧ safePrintQueues "".toList (some 0) (.ok "OK") false = true
    ∧ sendAddrInvalid "10.0.0.1".toList (some (1 / 2)) = false := by
  refine ⟨by decide, by decide, ?_⟩
  have h1 : (jsTrim "10.0.0.1".toList).isEmpty = false := by decide
  have h2 : ¬ ((1 : ℚ) / 2 ≤ 0) := by norm_num
  rw [show sendAddrInvalid "10.0.0.1".toList (some (1 / 2))
      = ((jsTrim "10.0.0.1".toList).isEmpty || decide ((1 : ℚ) / 2 ≤ 0)) from rfl,
    h1, decide_eq_false h2]
  rfl

/-! ## Claim C6 — transport payload assembly -/

/-- C6.  The payload written by `sendToPrinter` is exactly the CP858
code-page-selection preamble `ESC t 0x13`, then the segments in their original
order (text runs through the CP858 encoder, binary blobs verbatim), then the
feed-and-cut trailer `ESC d 6 ESC i` — nothing else and in no other order. -/
theorem send_payload_shape (enc : JSStr → List Nat) (data : List Segment) :
    sendPayload enc data
      = [0x1B, 0x74, 0x13] ++ (data.map (encodeSegment enc)).flatten
        ++ [0x1B, 0x64, 0x06, 0x1B, 0x69] := by
  unfold sendPayload
  rw [foldl_buffers_eq]
  simp [SELECT_CP858, FEED_AND_CUT]

/-! ## Claim C7 — raster bitmap size -/

/-- C7.  For every thresholded canvas, the packed monochrome bitmap emitted by
`loadImageAsEscPos` (after the 8-byte `GS v 0` header) has byte length exactly
`⌈paperWidth/8⌉ * height` (`(paperWidth+7)/8` is the ceiling division of the
source's `Math.ceil(paperWidth / 8)`); the concrete conjunct shows the packing
is MSB-first and row-major: the single black pixel `(x, y) = (10, 1)` on a
16-dot-wide canvas sets bit `7 - 10 % 8 = 5` of byte `1 * 2 + 10 / 8 = 3`. -/
theorem raster_bitmap_size (black : Nat → Nat → Bool) (paperWidth height : Nat) :
    (escposRaster black paperWidth height).length = 8 + (paperWidth + 7) / 8 * height
    ∧ ((escposRaster black paperWidth height).drop 8).length = (paperWidth + 7) / 8 * height
    ∧ escposRaster (fun x y => x == 10 && y == 1) 16 2
        = [0x1d, 0x76, 0x30, 0x00, 2, 0, 2, 0, 0, 0, 0, 32] := by
  have h1 : (escposRaster black paperWidth height).length
      = 8 + (paperWidth + 7) / 8 * height := by
    unfold escposRaster
    rw [List.length_append, length_packBitmap]
    rfl
  refine ⟨h1, ?_, by decide⟩
  rw [List.length_drop, h1]
  omega

/-! ## Claim C8 — per-printer progress counter -/

/-- A concrete kitchen receipt (empty order, no items) used by the C8 witness. -/
def kitchenOutExample : List JSStr :=
  (buildKitchenReceipt (fun _ => none) ⟨none, none, none, none⟩ [] 1).getD []

/-- C8.  Starting from the empty counter map, the progress values used for the
kitchen receipts of any printer are exactly `1, 2, 3, …` in generation order
(start at 1, +1 per receipt, never decreasing); the progress value passed to
`buildKitchenReceipt` is rendered in the large-font `PROGR:` header line of the
receipt; and in the concrete two-orders-to-P1 scenario the values are `[1, 2]`. -/
theorem progress_counter_monotone :
    (∀ (pids : List String) (pid : String),
      progsAt pid (runGens (fun _ => none) pids) = List.range' 1 (pids.count pid))
    ∧ (∀ (pd : JSStr → Option DateParts) (o : KOrder) (ls : List KitchenLine)
        (progress : Nat) (out : List JSStr),
        ("PROGR: ".toList ++ natDigits progress).length ≤ 48 →
        buildKitchenReceipt pd o ls progress = some out →
        TXT_BIG ++ "PROGR: ".toList ++ natDigits progress ++ TXT_NORMAL ∈ out)
    ∧ progsAt "P1" (runGens (fun _ => none) ["P1", "P2", "P1"]) = [1, 2] := by
  refine ⟨?_, ?_, by decide⟩
  · intro pids pid
    rw [progsAt_runGens]
    rfl
  · intro pd o ls progress out hlen hbuild
    unfold buildKitchenReceipt at hbuild
    obtain ⟨items, hitems, rfl⟩ := Option.map_eq_some'.mp hbuild
    apply List.mem_append_left
    apply List.mem_append_left
    unfold kitchenHeader
    apply List.mem_append_left
    apply List.mem_append_left
    apply List.mem_append_left
    have hcut : cutW ("PROGR: ".toList ++ natDigits progress) 48
        = "PROGR: ".toList ++ natDigits progress := by
      unfold cutW
      rw [if_pos hlen]
    simp only [List.mem_cons]
    refine Or.inr (Or.inr (Or.inr (Or.inr (Or.inr (Or.inl ?_)))))
    rw [hcut]
    simp [List.append_assoc]

/-- Witness for C8: the empty receipt for progress 1 contains the large-font
`PROGR: 1` line. -/
theorem progress_counter_monotone_witness :
    TXT_BIG ++ "PROGR: ".toList ++ natDigits 1 ++ TXT_NORMAL ∈ kitchenOutExample :=
  progress_counter_monotone.2.1 (fun _ => none) ⟨none, none, none, none⟩ [] 1
    kitchenOutExample (by decide) (by decide)

/-! ## Claim C9 — job ids assigned by `enqueue` -/

/-- C9 (amended).  `PrintQueueManager.add` appends exactly one new job —
carrying the externally drawn random id, the given printer data and attempt
count 0 — at the end of the queue, leaving all previously queued jobs
unchanged, so the queue size strictly increases; the id itself is an opaque
random token with no ordering guarantee. -/
theorem queue_add_appends (q : List PrintJob) (randId printerId ip : String)
    (port : Int) (data : List Nat) (now : Nat) :
    (queueAdd q randId printerId ip port data now).length = q.length + 1
    ∧ (queueAdd q randId printerId ip port data now).take q.length = q
    ∧ (queueAdd q randId printerId ip port data now).getLast?
        = some { id := randId, printerId := printerId, ip := ip, port := port,
                 data := data, timestamp := now, attempts := 0 }
    ∧ ∀ j ∈ q, j ∈ queueAdd q randId printerId ip port data now := by
  refine ⟨by simp [queueAdd], ?_, ?_, ?_⟩
  · unfold queueAdd
    exact List.take_left q _
  · unfold queueAdd
    exact List.getLast?_concat _
  · intro j hj
    unfold queueAdd
    exact List.mem_append_left _ hj

/-- Counterexample to C9 as stated: `Math.random().toString(36).substring(7)`
can draw `"zz"` and then `"aa"`, in which case the second enqueued job's id is
strictly smaller than the first's — ids are not monotonically increasing. -/
theorem queue_add_ids_not_monotone :
    ((queueAdd (queueAdd [] "zz" "P1" "10.0.0.1" 9100 [] 0) "aa" "P1" "10.0.0.1" 9100 [] 1).map
        (fun j => j.id)) = ["zz", "aa"]
    ∧ ¬ ("zz" < "aa") := by
  refine ⟨rfl, ?_⟩
  rw [String.lt_iff_toList_lt]
  decide

/-! ## Claims C2 and C10 — word wrapping

Invariants carried through the word loop: every flushed line fits in `maxW`,
the trimmed current line fits in `maxW`, and the non-whitespace characters of
(flushed lines ++ current line) are those of the words consumed so far. -/

/-- A single space has no non-whitespace characters. -/
theorem nsChars_space : nsChars [' '] = [] := rfl

/-- Specification of the hard-split loop: assuming the current line and the
indent are strictly shorter than `maxW`, every line it pushes fits in `maxW`,
the final current line trims to within `maxW`, and no non-whitespace character
is created or lost. -/
theorem hardSplit_spec (maxW : Nat) (indent : JSStr)
    (hiws : ∀ c ∈ indent, jsIsWs c = true) (hilt : indent.length < maxW) :
    ∀ (fuel : Nat) (cur temp : JSStr) (acc : List JSStr) (res : List JSStr × JSStr),
      hardSplitLoop fuel maxW indent cur temp acc = some res →
      cur.length < maxW →
      (∀ l ∈ res.1, l ∈ acc ∨ l.length ≤ maxW)
      ∧ (jsTrimEnd res.2).length ≤ maxW
      ∧ nsChars res.1.flatten ++ nsChars res.2
          = nsChars acc.flatten ++ (nsChars cur ++ nsChars temp) := by
  intro fuel
  induction fuel with
  | zero =>
    intro cur temp acc res h _
    simp [hardSplitLoop] at h
  | succ fuel ih =>
    intro cur temp acc res h hcur
    simp only [hardSplitLoop] at h
    by_cases hcond : (cur ++ temp).length > maxW
    · rw [if_pos hcond] at h
      obtain ⟨h1, h2, h3⟩ := ih indent (temp.drop (max 1 (maxW - cur.length)))
        (acc ++ [cur ++ temp.take (max 1 (maxW - cur.length))]) res h hilt
      refine ⟨?_, h2, ?_⟩
      · intro l hl
        rcases h1 l hl with hmem | hle
        · rw [List.mem_append] at hmem
          rcases hmem with h' | h'
          · exact Or.inl h'
          · right
            rw [List.mem_singleton] at h'
            subst h'
            rw [List.length_append, List.length_take]
            have hk : max 1 (maxW - cur.length) = maxW - cur.length := by omega
            omega
        · exact Or.inr hle
      · calc nsChars res.1.flatten ++ nsChars res.2
            = nsChars (acc ++ [cur ++ temp.take (max 1 (maxW - cur.length))]).flatten
              ++ (nsChars indent ++ nsChars (temp.drop (max 1 (maxW - cur.length)))) := h3
          _ = nsChars acc.flatten
              ++ (nsChars cur ++ (nsChars (temp.take (max 1 (maxW - cur.length)))
                    ++ nsChars (temp.drop (max 1 (maxW - cur.length))))) := by
              simp [List.flatten_append, nsChars_append, nsChars_of_all_ws indent hiws,
                List.append_assoc]
          _ = nsChars acc.flatten ++ (nsChars cur ++ nsChars temp) := by
              rw [← nsChars_append, List.take_append_drop]
    · rw [if_neg hcond] at h
      obtain rfl := Option.some.inj h
      refine ⟨fun l hl => Or.inl hl, ?_, ?_⟩
      · show (jsTrimEnd (cur ++ temp ++ [' '])).length ≤ maxW
        rw [jsTrimEnd_append_space]
        exact le_trans (length_jsTrimEnd_le _) (by omega)
      · show nsChars acc.flatten ++ nsChars (cur ++ temp ++ [' '])
            = nsChars acc.flatten ++ (nsChars cur ++ nsChars temp)
        simp [nsChars_append, nsChars_space]

/-- Specification of one word-loop iteration: the two line-length invariants
are preserved and the word's non-whitespace characters are appended to the
state's content. -/
theorem wrapStep_spec (maxW : Nat) (indent : JSStr)
    (hiws : ∀ c ∈ indent, jsIsWs c = true) (hilt : indent.length < maxW)
    (st : List JSStr × JSStr) (word : JSStr) (res : List JSStr × JSStr)
    (h : wrapStep maxW indent st word = some res)
    (ha : ∀ l ∈ st.1, l.length ≤ maxW)
    (hb : (jsTrimEnd st.2).length ≤ maxW) :
    (∀ l ∈ res.1, l.length ≤ maxW)
    ∧ (jsTrimEnd res.2).length ≤ maxW
    ∧ nsChars res.1.flatten ++ nsChars res.2
        = nsChars st.1.flatten ++ (nsChars st.2 ++ nsChars word) := by
  have hmaxpos : 0 < maxW := Nat.lt_of_le_of_lt (Nat.zero_le _) hilt
  simp only [wrapStep] at h
  by_cases h1 : (st.2 ++ word).length > maxW
  · rw [if_pos h1] at h
    generalize hL : (if st.2.length > 0 then st.1 ++ [jsTrimEnd st.2] else st.1) = lines1 at h
    generalize hP : (if lines1.length > 0 then indent else ([] : JSStr)) = pfx at h
    have hlines1a : ∀ l ∈ lines1, l.length ≤ maxW := by
      intro l hl
      by_cases h0 : st.2.length > 0
      · rw [if_pos h0] at hL
        rw [← hL, List.mem_append] at hl
        rcases hl with h' | h'
        · exact ha l h'
        · rw [List.mem_singleton] at h'
          subst h'
          exact hb
      · rw [if_neg h0] at hL
        rw [← hL] at hl
        exact ha l hl
    have hlines1b : nsChars lines1.flatten = nsChars st.1.flatten ++ nsChars st.2 := by
      by_cases h0 : st.2.length > 0
      · rw [if_pos h0] at hL
        rw [← hL, List.flatten_append]
        simp [nsChars_append, nsChars_jsTrimEnd]
      · rw [if_neg h0] at hL
        have hnil : st.2 = [] := by
          rw [← List.length_eq_zero]
          omega
        rw [← hL, hnil]
        simp [nsChars]
    have hpfxlen : pfx.length < maxW := by
      by_cases h0 : lines1.length > 0
      · rw [if_pos h0] at hP
        rw [← hP]
        exact hilt
      · rw [if_neg h0] at hP
        rw [← hP]
        simpa using hmaxpos
    have hpfxns : nsChars pfx = [] := by
      by_cases h0 : lines1.length > 0
      · rw [if_pos h0] at hP
        rw [← hP]
        exact nsChars_of_all_ws indent hiws
      · rw [if_neg h0] at hP
        rw [← hP]
        rfl
    by_cases h2 : (pfx ++ word).length > maxW
    · rw [if_pos h2] at h
      obtain ⟨ga, gb, gc⟩ := hardSplit_spec maxW indent hiws hilt (word.length + 1)
        pfx word lines1 res h hpfxlen
      refine ⟨?_, gb, ?_⟩
      · intro l hl
        rcases ga l hl with h' | h'
        · exact hlines1a l h'
        · exact h'
      · rw [gc, hlines1b, hpfxns]
        simp [List.append_assoc]
    · rw [if_neg h2] at h
      obtain rfl := Option.some.inj h
      refine ⟨hlines1a, ?_, ?_⟩
      · show (jsTrimEnd (pfx ++ word ++ [' '])).length ≤ maxW
        rw [jsTrimEnd_append_space]
        exact le_trans (length_jsTrimEnd_le _) (by omega)
      · show nsChars lines1.flatten ++ nsChars (pfx ++ word ++ [' '])
            = nsChars st.1.flatten ++ (nsChars st.2 ++ nsChars word)
        rw [hlines1b]
        simp [nsChars_append, nsChars_space, hpfxns, List.append_assoc]
  · rw [if_neg h1] at h
    obtain rfl := Option.some.inj h
    refine ⟨ha, ?_, ?_⟩
    · show (jsTrimEnd (st.2 ++ word ++ [' '])).length ≤ maxW
      rw [jsTrimEnd_append_space]
      exact le_trans (length_jsTrimEnd_le _) (by omega)
    · show nsChars st.1.flatten ++ nsChars (st.2 ++ word ++ [' '])
          = nsChars st.1.flatten ++ (nsChars st.2 ++ nsChars word)
      simp [nsChars_append, nsChars_space]

/-- Specification of the whole word loop. -/
theorem wrapWords_spec (maxW : Nat) (indent : JSStr)
    (hiws : ∀ c ∈ indent, jsIsWs c = true) (hilt : indent.length < maxW) :
    ∀ (ws : List JSStr) (st res : List JSStr × JSStr),
      wrapWords maxW indent ws st = some res →
      (∀ l ∈ st.1, l.length ≤ maxW) →
      (jsTrimEnd st.2).length ≤ maxW →
      (∀ l ∈ res.1, l.length ≤ maxW)
      ∧ (jsTrimEnd res.2).length ≤ maxW
      ∧ nsChars res.1.flatten ++ nsChars res.2
          = nsChars st.1.flatten ++ (nsChars st.2 ++ nsChars ws.flatten) := by
  intro ws
  induction ws with
  | nil =>
    intro st res h ha hb
    obtain rfl := Option.some.inj h
    refine ⟨ha, hb, by simp [nsChars]⟩
  | cons w rest ih =>
    intro st res h ha hb
    simp only [wrapWords] at h
    cases hstep : wrapStep maxW indent st w with
    | none =>
      rw [hstep] at h
      simp at h
    | some mid =>
      rw [hstep] at h
      simp only [Option.some_bind] at h
      obtain ⟨sa, sb, sc⟩ := wrapStep_spec maxW indent hiws hilt st w mid hstep ha hb
      obtain ⟨ra, rb, rc⟩ := ih mid res h sa sb
      refine ⟨ra, rb, ?_⟩
      calc nsChars res.1.flatten ++ nsChars res.2
          = nsChars mid.1.flatten ++ (nsChars mid.2 ++ nsChars rest.flatten) := rc
        _ = (nsChars mid.1.flatten ++ nsChars mid.2) ++ nsChars rest.flatten := by
            rw [List.append_assoc]
        _ = (nsChars st.1.flatten ++ (nsChars st.2 ++ nsChars w)) ++ nsChars rest.flatten := by
            rw [sc]
        _ = nsChars st.1.flatten ++ (nsChars st.2 ++ nsChars (w :: rest).flatten) := by
            simp [List.flatten_cons, nsChars_append, List.append_assoc]

/-- C2 (amended).  For every text, every `maxWidth`, and every whitespace-only
indent shorter than `maxWidth`, whenever `wrapText` returns (it always does on
this domain, see `wrapText_total`), every produced line has length at most
`maxWidth`, and the concatenation of the produced lines carries exactly the
non-whitespace characters of the input text in their original order (the
inserted indents and line breaks are whitespace, so the words are reproduced
in order, split only at the hard-split boundaries). -/
theorem wrap_text_spec (text : JSStr) (maxW : Nat) (indent : JSStr) (lines : List JSStr)
    (hiws : ∀ c ∈ indent, jsIsWs c = true)
    (hilt : indent.length < maxW)
    (h : wrapText text maxW indent = some lines) :
    (∀ l ∈ lines, l.length ≤ maxW)
    ∧ nsChars lines.flatten = nsChars text := by
  unfold wrapText at h
  obtain ⟨st, hww, hfin⟩ := Option.map_eq_some'.mp h
  obtain ⟨ha, hb, hcnt⟩ := wrapWords_spec maxW indent hiws hilt (splitSpaces text)
    ([], []) st hww (by simp) (by simp [jsTrimEnd])
  have hcnt' : nsChars st.1.flatten ++ nsChars st.2 = nsChars text := by
    rw [hcnt]
    show nsChars [] ++ (nsChars [] ++ nsChars (splitSpaces text).flatten) = nsChars text
    rw [nsChars_flatten_splitSpaces]
    rfl
  subst hfin
  constructor
  · intro l hl
    by_cases h0 : 0 < (jsTrim st.2).length
    · rw [if_pos h0] at hl
      rw [List.mem_append] at hl
      rcases hl with h' | h'
      · exact ha l h'
      · rw [List.mem_singleton] at h'
        subst h'
        exact hb
    · rw [if_neg h0] at hl
      exact ha l hl
  · by_cases h0 : 0 < (jsTrim st.2).length
    · rw [if_pos h0, List.flatten_append]
      simp only [List.flatten_cons, List.flatten_nil, List.append_nil]
      rw [nsChars_append, nsChars_jsTrimEnd]
      exact hcnt'
    · rw [if_neg h0]
      have hz : nsChars st.2 = [] := nsChars_of_jsTrim_nil st.2 (by omega)
      rw [hz, List.append_nil] at hcnt'
      exact hcnt'

/-- Witness for C2: `wrapText("hello world", 7, "  ")` produces
`["hello", "  world"]`; both lines fit in 7 columns and the non-whitespace
characters round-trip. -/
theorem wrap_text_spec_witness :
    (∀ l ∈ (["hello".toList, "  world".toList] : List JSStr), l.length ≤ 7)
    ∧ nsChars (["hello".toList, "  world".toList] : List JSStr).flatten
        = nsChars "hello world".toList :=
  wrap_text_spec "hello world".toList 7 "  ".toList ["hello".toList, "  world".toList]
    (by decide) (by decide) (by decide)

/-- Counterexample to C2 as stated: with `maxWidth = 1` and the one-character
indent `"x"` (indent length = maxWidth), `wrapText("ab", 1, "x")` returns the
line `"xb"` of length 2 > maxWidth (the hard-split loop pushes
`currentLine + at least one character` even when the indent already fills the
line). -/
theorem wrap_text_claim_false :
    wrapText "ab".toList 1 "x".toList
      = some ["a".toList, "xb".toList, "x".toList]
    ∧ ¬ (("xb".toList : JSStr).length ≤ 1) := by
  constructor
  · rfl
  · decide

/-! ### Termination of `wrapText` on the non-degenerate domain -/

/-- The hard-split loop returns within `temp.length + 1` iterations whenever
the indent (and the entering line) fit in `maxW`: every iteration consumes at
least one character of a non-empty remainder. -/
theorem hardSplit_total (maxW : Nat) (indent : JSStr) (hile : indent.length ≤ maxW) :
    ∀ (fuel : Nat) (cur temp : JSStr) (acc : List JSStr),
      cur.length ≤ maxW → temp.length < fuel →
      (hardSplitLoop fuel maxW indent cur temp acc).isSome := by
  intro fuel
  induction fuel with
  | zero =>
    intro cur temp acc _ h2
    omega
  | succ fuel ih =>
    intro cur temp acc hcur htemp
    simp only [hardSplitLoop]
    by_cases hcond : (cur ++ temp).length > maxW
    · rw [if_pos hcond]
      have htne : temp ≠ [] := by
        intro hnil
        subst hnil
        rw [List.append_nil] at hcond
        omega
      have htpos : 0 < temp.length := List.length_pos.mpr htne
      apply ih indent _ _ hile
      rw [List.length_drop]
      omega
    · rw [if_neg hcond]
      rfl

/-- One word-loop iteration never gets stuck when the indent fits in `maxW`. -/
theorem wrapStep_total (maxW : Nat) (indent : JSStr) (hile : indent.length ≤ maxW)
    (st : List JSStr × JSStr) (word : JSStr) :
    (wrapStep maxW indent st word).isSome := by
  simp only [wrapStep]
  by_cases h1 : (st.2 ++ word).length > maxW
  · rw [if_pos h1]
    generalize (if st.2.length > 0 then st.1 ++ [jsTrimEnd st.2] else st.1) = lines1
    by_cases h2 : ((if lines1.length > 0 then indent else ([] : JSStr)) ++ word).length > maxW
    · rw [if_pos h2]
      apply hardSplit_total maxW indent hile _ _ _ _ _ (Nat.lt_succ_self _)
      by_cases h0 : lines1.length > 0
      · rw [if_pos h0]
        exact hile
      · rw [if_neg h0]
        exact Nat.zero_le _
    · rw [if_neg h2]
      rfl
  · rw [if_neg h1]
    rfl

/-- The word loop never gets stuck when the indent fits in `maxW`. -/
theorem wrapWords_total (maxW : Nat) (indent : JSStr) (hile : indent.length ≤ maxW) :
    ∀ (ws : List JSStr) (st : List JSStr × JSStr),
      (wrapWords maxW indent ws st).isSome := by
  intro ws
  induction ws with
  | nil => intro st; rfl
  | cons w rest ih =>
    intro st
    simp only [wrapWords]
    cases hstep : wrapStep maxW indent st w with
    | none =>
      have := wrapStep_total maxW indent hile st w
      rw [hstep] at this
      simp at this
    | some mid =>
      simp only [Option.some_bind]
      exact ih mid

/-- `wrapText` terminates on every input whose indent is no longer than
`maxWidth` (this is the exact boundary: see
`wrapText_diverges_on_long_indent`). -/
theorem wrapText_total (text : JSStr) (maxW : Nat) (indent : JSStr)
    (hile : indent.length ≤ maxW) :
    (wrapText text maxW indent).isSome := by
  unfold wrapText
  cases hww : wrapWords maxW indent (splitSpaces text) ([], []) with
  | none =>
    have := wrapWords_total maxW indent hile (splitSpaces text) ([], [])
    rw [hww] at this
    simp at this
  | some st => rfl

/-- The absorbing state of the hard-split loop: once the remaining word is
empty and `currentLine = indent` is longer than `maxWidth`, the loop repeats
the same state forever (`"".substring(0, 1) = ""`), for every amount of fuel. -/
theorem hardSplit_stuck : ∀ (fuel : Nat) (acc : List JSStr),
    hardSplitLoop fuel 1 "xx".toList "xx".toList [] acc = none := by
  intro fuel
  induction fuel with
  | zero => intro acc; rfl
  | succ fuel ih =>
    intro acc
    have hstep : hardSplitLoop (fuel + 1) 1 "xx".toList "xx".toList [] acc
        = hardSplitLoop fuel 1 "xx".toList "xx".toList [] (acc ++ ["xx".toList]) := rfl
    rw [hstep]
    exact ih (acc ++ ["xx".toList])

/-- C10.  `wrapText` does NOT terminate for every input: with
`maxWidth = 1` and indent `"xx"` (longer than `maxWidth`), the word `"ab"`
drives the hard-split loop into the absorbing state (`currentLine = "xx"`,
`tempWord = ""`) in which no fuel suffices — the source `while` loop runs
forever.  The model accordingly returns `none` at this input (the claimed
"removes at least one character per iteration" fails on the empty remainder). -/
theorem wrapText_diverges_on_long_indent :
    (∀ (fuel : Nat) (acc : List JSStr),
        hardSplitLoop fuel 1 "xx".toList "xx".toList [] acc = none)
    ∧ wrapText "ab".toList 1 "xx".toList = none := by
  refine ⟨hardSplit_stuck, ?_⟩
  rfl

/-! ## Claim C4 — queue sweep

Properties of the grouping `Map` of `processQueue`, established by fold
induction: group keys are distinct, every member of a group carries the
group's printerId, groups are non-empty, and the groups partition the queue
(up to the reordering the grouping introduces). -/

/-- The keys after one grouping step. -/
theorem keys_addToGroups (gs : List (String × List PrintJob)) (j : PrintJob) :
    (addToGroups gs j).map (fun g => g.1)
      = if gs.any (fun g => g.1 == j.printerId) then gs.map (fun g => g.1)
        else gs.map (fun g => g.1) ++ [j.printerId] := by
  unfold addToGroups
  split
  · rw [List.map_map]
    apply List.map_congr_left
    intro g _
    simp only [Function.comp_apply]
    split <;> rfl
  · simp

/-- `Map.has`-style membership agrees with key membership. -/
theorem any_key_iff (gs : List (String × List PrintJob)) (pid : String) :
    gs.any (fun g => g.1 == pid) = true ↔ pid ∈ gs.map (fun g => g.1) := by
  rw [List.any_eq_true]
  simp only [List.mem_map, beq_iff_eq]

/-- One grouping step keeps the keys distinct. -/
theorem nodup_keys_addToGroups (gs : List (String × List PrintJob)) (j : PrintJob)
    (h : (gs.map (fun g => g.1)).Nodup) :
    ((addToGroups gs j).map (fun g => g.1)).Nodup := by
  rw [keys_addToGroups]
  split
  · exact h
  case isFalse hany =>
    have hnm : j.printerId ∉ gs.map (fun g => g.1) := fun hmem =>
      hany ((any_key_iff gs j.printerId).mpr hmem)
    simp [List.nodup_append, h, hnm]

/-- One grouping step keeps each member tagged with its group's printerId. -/
theorem memPid_addToGroups (gs : List (String × List PrintJob)) (j : PrintJob)
    (h : ∀ g ∈ gs, ∀ j' ∈ g.2, j'.printerId = g.1) :
    ∀ g ∈ addToGroups gs j, ∀ j' ∈ g.2, j'.printerId = g.1 := by
  unfold addToGroups
  split
  · intro g hg j' hj'
    rw [List.mem_map] at hg
    obtain ⟨g0, hg0, rfl⟩ := hg
    by_cases hb : (g0.1 == j.printerId) = true
    · rw [if_pos hb] at hj' ⊢
      rw [List.mem_append] at hj'
      rcases hj' with h' | h'
      · exact h g0 hg0 j' h'
      · rw [List.mem_singleton] at h'
        subst h'
        exact (beq_iff_eq.mp hb).symm
    · rw [if_neg hb] at hj' ⊢
      exact h g0 hg0 j' hj'
  · intro g hg j' hj'
    rw [List.mem_append] at hg
    rcases hg with h' | h'
    · exact h g h' j' hj'
    · rw [List.mem_singleton] at h'
      subst h'
      rw [List.mem_singleton] at hj'
      subst hj'
      rfl

/-- One grouping step keeps every group non-empty. -/
theorem nonempty_addToGroups (gs : List (String × List PrintJob)) (j : PrintJob)
    (h : ∀ g ∈ gs, g.2 ≠ []) :
    ∀ g ∈ addToGroups gs j, g.2 ≠ [] := by
  unfold addToGroups
  split
  · intro g hg
    rw [List.mem_map] at hg
    obtain ⟨g0, hg0, rfl⟩ := hg
    by_cases hb : (g0.1 == j.printerId) = true
    · rw [if_pos hb]
      simp
    · rw [if_neg hb]
      exact h g0 hg0
  · intro g hg
    rw [List.mem_append] at hg
    rcases hg with h' | h'
    · exact h g h'
    · rw [List.mem_singleton] at h'
      subst h'
      simp

/-- One grouping step appends the job to the partition, up to reordering
(needs distinct keys so that exactly one group receives the job). -/
theorem flatMap_addToGroups_perm (j : PrintJob) :
    ∀ gs : List (String × List PrintJob), (gs.map (fun g => g.1)).Nodup →
      List.Perm ((addToGroups gs j).flatMap (fun g => g.2))
        (gs.flatMap (fun g => g.2) ++ [j]) := by
  intro gs
  induction gs with
  | nil =>
    intro _
    simp [addToGroups]
  | cons g gs' ih =>
    intro hnd
    have hnd' : (gs'.map (fun g => g.1)).Nodup := (List.nodup_cons.mp (by simpa using hnd)).2
    have hhead : g.1 ∉ gs'.map (fun g => g.1) := (List.nodup_cons.mp (by simpa using hnd)).1
    unfold addToGroups
    by_cases hg : (g.1 == j.printerId) = true
    · rw [if_pos (by simp [List.any_cons, hg])]
      have hmap : gs'.map (fun g' => if g'.1 == j.printerId then (g'.1, g'.2 ++ [j]) else g')
          = gs' := by
        have : ∀ g' ∈ gs',
            (if g'.1 == j.printerId then (g'.1, g'.2 ++ [j]) else g') = id g' := by
          intro g' hg'
          have hne : g'.1 ≠ j.printerId := by
            intro heq
            exact hhead (by
              rw [beq_iff_eq] at hg
              rw [hg, ← heq]
              exact List.mem_map.mpr ⟨g', hg', rfl⟩)
          simp [beq_eq_false_iff_ne.mpr hne]
        rw [List.map_congr_left this, List.map_id]
      rw [List.map_cons, if_pos hg, hmap]
      simp only [List.flatMap_cons]
      rw [List.append_assoc, List.append_assoc]
      exact List.Perm.append_left g.2 List.perm_append_comm
    · by_cases hany : gs'.any (fun g' => g'.1 == j.printerId) = true
      · rw [if_pos (by simp [List.any_cons, hg, hany])]
        have ih' := ih hnd'
        unfold addToGroups at ih'
        rw [if_pos hany] at ih'
        rw [List.map_cons, if_neg hg]
        simp only [List.flatMap_cons]
        rw [List.append_assoc]
        exact List.Perm.append_left g.2 ih'
      · rw [if_neg (by simp [List.any_cons, hg, hany])]
        rw [List.flatMap_append]
        simp

/-- Key membership after one grouping step. -/
theorem mem_keys_addToGroups (gs : List (String × List PrintJob)) (j : PrintJob)
    (pid : String) :
    pid ∈ (addToGroups gs j).map (fun g => g.1)
      ↔ pid ∈ gs.map (fun g => g.1) ∨ pid = j.printerId := by
  rw [keys_addToGroups]
  split
  case isTrue hany =>
    constructor
    · exact Or.inl
    · rintro (h | rfl)
      · exact h
      · exact (any_key_iff gs j.printerId).mp hany
  case isFalse hany =>
    simp [List.mem_append]

/-- All the grouping invariants, over the fold of `processQueue`. -/
theorem foldl_groups_props : ∀ (l : List PrintJob) (gs : List (String × List PrintJob)),
    (gs.map (fun g => g.1)).Nodup →
    (∀ g ∈ gs, ∀ j' ∈ g.2, j'.printerId = g.1) →
    (∀ g ∈ gs, g.2 ≠ []) →
    ((l.foldl addToGroups gs).map (fun g => g.1)).Nodup
    ∧ (∀ g ∈ l.foldl addToGroups gs, ∀ j' ∈ g.2, j'.printerId = g.1)
    ∧ (∀ g ∈ l.foldl addToGroups gs, g.2 ≠ [])
    ∧ List.Perm ((l.foldl addToGroups gs).flatMap (fun g => g.2))
        (gs.flatMap (fun g => g.2) ++ l)
    ∧ (∀ pid, pid ∈ (l.foldl addToGroups gs).map (fun g => g.1)
        ↔ pid ∈ gs.map (fun g => g.1) ∨ pid ∈ l.map (fun j => j.printerId)) := by
  intro l
  induction l with
  | nil =>
    intro gs h1 h2 h3
    refine ⟨h1, h2, h3, by simp, by simp⟩
  | cons j l' ih =>
    intro gs h1 h2 h3
    rw [List.foldl_cons]
    obtain ⟨r1, r2, r3, r4, r5⟩ := ih (addToGroups gs j)
      (nodup_keys_addToGroups gs j h1) (memPid_addToGroups gs j h2)
      (nonempty_addToGroups gs j h3)
    refine ⟨r1, r2, r3, ?_, ?_⟩
    · refine r4.trans ?_
      refine (List.Perm.append_right l' (flatMap_addToGroups_perm j gs h1)).trans ?_
      rw [List.append_assoc]
      exact List.Perm.refl _
    · intro pid
      rw [r5 pid, mem_keys_addToGroups]
      simp only [List.map_cons, List.mem_cons]
      tauto

/-- The per-group `filterMap` of status queries hits every group once. -/
theorem queries_keys (f : String × List PrintJob → PrintJob → String × String × Int) :
    ∀ groups : List (String × List PrintJob), (∀ g ∈ groups, g.2 ≠ []) →
      (groups.filterMap (fun g => (g.2.head?).map (f g))).length = groups.length := by
  intro groups
  induction groups with
  | nil => intro _; rfl
  | cons g gs ih =>
    intro h
    cases hg2 : g.2 with
    | nil => exact absurd hg2 (h g (List.mem_cons_self g gs))
    | cons j0 rest =>
      simp only [List.filterMap_cons, hg2, List.head?_cons, Option.map_some']
      rw [List.length_cons, List.length_cons, ih (fun g' hg' => h g' (List.mem_cons_of_mem g hg'))]

/-- `filter` distributes into `flatMap`. -/
theorem filter_flatMap {α β : Type} (p : β → Bool) (f : α → List β) :
    ∀ l : List α, (l.flatMap f).filter p = l.flatMap (fun a => (f a).filter p) := by
  intro l
  induction l with
  | nil => rfl
  | cons a t ih =>
    simp only [List.flatMap_cons, List.filter_append, ih]

/-- `flatMap` congruence on the members. -/
theorem flatMap_congr {α β : Type} (f g : α → List β) :
    ∀ l : List α, (∀ a ∈ l, f a = g a) → l.flatMap f = l.flatMap g := by
  intro l
  induction l with
  | nil => intro _; rfl
  | cons a t ih =>
    intro h
    simp only [List.flatMap_cons]
    rw [h a (List.mem_cons_self a t), ih (fun a' ha' => h a' (List.mem_cons_of_mem a ha'))]

/-- C4.  One queue sweep, for any status/send outcomes: the status of each
printer is queried exactly once per group (the query keys are exactly the
distinct printerIds present in the queue); every job of a group whose status
came back `OK`/`CARTA_QUASI_FINITA` is attempted; and the new queue consists
exactly of the untouched job records that were not successfully sent — a job
is removed iff its group's status was ready and its `sendToPrinter` resolved,
and every kept job is kept unchanged (same record, attempts included).  The
hypothesis mirrors the source comment: all queued jobs of one printerId carry
the same ip/port. -/
theorem process_queue_spec (statusOf : String → Int → Option String)
    (sendOk : PrintJob → Bool) (q : List PrintJob)
    (haddr : ∀ j₁ ∈ q, ∀ j₂ ∈ q, j₁.printerId = j₂.printerId →
      j₁.ip = j₂.ip ∧ j₁.port = j₂.port) :
    List.Perm ((processQueue statusOf sendOk q).remaining)
      (q.filter (fun j => !(statusReady (statusOf j.ip j.port) && sendOk j)))
    ∧ List.Perm ((processQueue statusOf sendOk q).attempted)
      (q.filter (fun j => statusReady (statusOf j.ip j.port)))
    ∧ (((processQueue statusOf sendOk q).queries).length
        = (groupByPrinter q).length
        ∧ ((groupByPrinter q).map (fun g => g.1)).Nodup
        ∧ (∀ pid, pid ∈ (groupByPrinter q).map (fun g => g.1)
            ↔ pid ∈ q.map (fun j => j.printerId)))
    ∧ (∀ j ∈ (processQueue statusOf sendOk q).remaining, j ∈ q) := by
  obtain ⟨hnd, hpid, hne, hperm, hkeys⟩ :=
    foldl_groups_props q [] (by simp) (by simp) (by simp)
  simp only [List.flatMap_nil, List.nil_append] at hperm
  have hmemq : ∀ g ∈ groupByPrinter q, ∀ j ∈ g.2, j ∈ q := by
    intro g hg j hj
    exact hperm.mem_iff.mp (List.mem_flatMap.mpr ⟨g, hg, hj⟩)
  have hsame : ∀ g ∈ groupByPrinter q, ∀ j0 ∈ g.2, ∀ j ∈ g.2,
      statusOf j.ip j.port = statusOf j0.ip j0.port := by
    intro g hg j0 hj0 j hj
    obtain ⟨hip, hport⟩ := haddr j (hmemq g hg j hj) j0 (hmemq g hg j0 hj0)
      (by rw [hpid g hg j hj, hpid g hg j0 hj0])
    rw [hip, hport]
  have hstepRem : ∀ g ∈ groupByPrinter q,
      (match g.2 with
       | [] => ([] : List PrintJob)
       | j0 :: _ =>
         if statusReady (statusOf j0.ip j0.port) then
           g.2.filter (fun j => !(sendOk j))
         else g.2)
      = g.2.filter (fun j => !(statusReady (statusOf j.ip j.port) && sendOk j)) := by
    intro g hg
    cases hg2 : g.2 with
    | nil => exact absurd hg2 (hne g hg)
    | cons j0 rest =>
      have hj0 : j0 ∈ g.2 := by
        rw [hg2]
        exact List.mem_cons_self j0 rest
      show (if statusReady (statusOf j0.ip j0.port) = true then
              List.filter (fun j => !sendOk j) (j0 :: rest)
            else j0 :: rest)
          = List.filter (fun j => !(statusReady (statusOf j.ip j.port) && sendOk j))
              (j0 :: rest)
      by_cases hr : statusReady (statusOf j0.ip j0.port) = true
      · rw [if_pos hr]
        apply List.filter_congr
        intro j hj
        have hj' : j ∈ g.2 := by
          rw [hg2]
          exact hj
        rw [hsame g hg j0 hj0 j hj', hr]
        simp
      · rw [if_neg hr]
        refine (List.filter_eq_self.mpr ?_).symm
        intro j hj
        have hj' : j ∈ g.2 := by
          rw [hg2]
          exact hj
        rw [hsame g hg j0 hj0 j hj']
        simp only [Bool.not_eq_true] at hr
        rw [hr]
        simp
  have hstepAtt : ∀ g ∈ groupByPrinter q,
      (match g.2 with
       | [] => ([] : List PrintJob)
       | j0 :: _ =>
         if statusReady (statusOf j0.ip j0.port) then g.2 else [])
      = g.2.filter (fun j => statusReady (statusOf j.ip j.port)) := by
    intro g hg
    cases hg2 : g.2 with
    | nil => exact absurd hg2 (hne g hg)
    | cons j0 rest =>
      have hj0 : j0 ∈ g.2 := by
        rw [hg2]
        exact List.mem_cons_self j0 rest
      show (if statusReady (statusOf j0.ip j0.port) = true then j0 :: rest else [])
          = List.filter (fun j => statusReady (statusOf j.ip j.port)) (j0 :: rest)
      by_cases hr : statusReady (statusOf j0.ip j0.port) = true
      · rw [if_pos hr]
        refine (List.filter_eq_self.mpr ?_).symm
        intro j hj
        have hj' : j ∈ g.2 := by
          rw [hg2]
          exact hj
        rw [hsame g hg j0 hj0 j hj', hr]
      · rw [if_neg hr]
        refine (List.filter_eq_nil_iff.mpr ?_).symm
        intro j hj
        have hj' : j ∈ g.2 := by
          rw [hg2]
          exact hj
        rw [hsame g hg j0 hj0 j hj']
        simp only [Bool.not_eq_true] at hr
        simp [hr]
  have hrem : (processQueue statusOf sendOk q).remaining
      = ((groupByPrinter q).flatMap (fun g => g.2)).filter
          (fun j => !(statusReady (statusOf j.ip j.port) && sendOk j)) := by
    show (groupByPrinter q).flatMap _ = _
    rw [filter_flatMap]
    exact flatMap_congr _ _ (groupByPrinter q) hstepRem
  have hatt : (processQueue statusOf sendOk q).attempted
      = ((groupByPrinter q).flatMap (fun g => g.2)).filter
          (fun j => statusReady (statusOf j.ip j.port)) := by
    show (groupByPrinter q).flatMap _ = _
    rw [filter_flatMap]
    exact flatMap_congr _ _ (groupByPrinter q) hstepAtt
  refine ⟨?_, ?_, ⟨?_, hnd, ?_⟩, ?_⟩
  · rw [hrem]
    exact hperm.filter _
  · rw [hatt]
    exact hperm.filter _
  · exact queries_keys (fun g j0 => (g.1, j0.ip, j0.port)) (groupByPrinter q) hne
  · intro pid
    unfold groupByPrinter
    rw [hkeys pid]
    simp
  · intro j hj
    rw [hrem] at hj
    rw [List.mem_filter] at hj
    exact hperm.mem_iff.mp hj.1

/-- The concrete queue used by the C4 witness: two jobs for printer `P1`
(whose status comes back `OK`, and whose first job sends successfully while
the second fails) and one job for printer `P2` (paper out). -/
def c4Jobs : List PrintJob :=
  [{ id := "a", printerId := "P1", ip := "10.0.0.1", port := 9100, data := [],
     timestamp := 0, attempts := 0 },
   { id := "b", printerId := "P1", ip := "10.0.0.1", port := 9100, data := [],
     timestamp := 1, attempts := 0 },
   { id := "c", printerId := "P2", ip := "10.0.0.2", port := 9100, data := [],
     timestamp := 2, attempts := 0 }]

/-- Status outcomes for the C4 witness sweep. -/
def c4Status (ip : String) (_port : Int) : Option String :=
  if ip = "10.0.0.1" then some "OK" else some "CARTA_FINITA"

/-- Send outcomes for the C4 witness sweep: only job `"a"` transmits. -/
def c4SendOk (j : PrintJob) : Bool := j.id == "a"

/-- Witness for C4 at the concrete sweep `c4Jobs` / `c4Status` / `c4SendOk`:
job `"a"` is delivered and removed; job `"b"` (send failed) and job `"c"`
(paper out) stay queued unchanged; `P1` and `P2` are each queried once. -/
theorem process_queue_spec_witness :
    List.Perm ((processQueue c4Status c4SendOk c4Jobs).remaining)
      (c4Jobs.filter (fun j => !(statusReady (c4Status j.ip j.port) && c4SendOk j)))
    ∧ List.Perm ((processQueue c4Status c4SendOk c4Jobs).attempted)
      (c4Jobs.filter (fun j => statusReady (c4Status j.ip j.port)))
    ∧ (((processQueue c4Status c4SendOk c4Jobs).queries).length
        = (groupByPrinter c4Jobs).length
        ∧ ((groupByPrinter c4Jobs).map (fun g => g.1)).Nodup
        ∧ (∀ pid, pid ∈ (groupByPrinter c4Jobs).map (fun g => g.1)
            ↔ pid ∈ c4Jobs.map (fun j => j.printerId)))
    ∧ (∀ j ∈ (processQueue c4Status c4SendOk c4Jobs).remaining, j ∈ c4Jobs) :=
  process_queue_spec c4Status c4SendOk c4Jobs (by decide)

end MyStampa
